import Mathlib

/-!
Verification of the LLM resilience layer: model registry, retry unit,
circular-fallback controller, streaming event generators, and the chat
message content validator.  Definitions are shallow embeddings of the
corresponding Python functions in `app/services/llm.py`,
`app/api/v1/chatbot.py` and `app/schemas/chat.py`.  A backend model handle
is abstracted as a value of an arbitrary type `H`; its single-invocation
outcome (through the retry unit) is a parameter `rc : H → Except String String`.
-/

/-- An entry of `LLMRegistry.LLMS`: a model name paired with its
pre-initialized handle (`{"name": ..., "llm": ...}`). -/
structure ModelEntry (H : Type) where
  name : String
  llm : H
deriving DecidableEq

instance {H : Type} [Inhabited H] : Inhabited (ModelEntry H) := ⟨⟨"", default⟩⟩

/-- A single-quote character, used in error messages. -/
def squote : String := String.singleton (Char.ofNat 39)

deriving instance DecidableEq for Except

/-- The message of the `ValueError` raised by `LLMRegistry.get` when the
requested model name is absent. -/
def notFoundMsg (name : String) (names : List String) : String :=
  "model " ++ squote ++ name ++ squote ++ " not found in registry. available models: "
    ++ String.intercalate ", " names

/-- `LLMRegistry.get(model_name)` without keyword overrides: linear scan for
the first entry with the given name; raises `ValueError` when absent. -/
def registryGet {H : Type} (llms : List (ModelEntry H)) (name : String) :
    Except String H :=
  match llms.find? (fun e => e.name == name) with
  | some e => Except.ok e.llm
  | none => Except.error (notFoundMsg name (llms.map (fun e => e.name)))

/-- Python `list.index` on the registry's name list: index of the first
entry with the given name, `none` when absent (`ValueError`). -/
def indexOfName {H : Type} : List (ModelEntry H) → String → Option Nat
  | [], _ => none
  | e :: rest, name =>
    if e.name = name then some 0 else (indexOfName rest name).map (· + 1)

/-- `LLMRegistry.get_model_at_index(index)`: returns `LLMS[index]` when
`0 <= index < len(LLMS)` and otherwise falls back to `LLMS[0]` (the code
comment reads "Wrap around to first model").  `none` models the
`IndexError` raised on an empty registry. -/
def get_model_at_index {H : Type} (llms : List (ModelEntry H)) (index : Int) :
    Option (ModelEntry H) :=
  if 0 ≤ index ∧ index < (llms.length : Int) then llms.get? index.toNat
  else llms.get? 0

/-- Modelled from the spec: "`get_at(index) -> entry`: returns entry at
`index mod length`".  This is the spec's wording of the cyclic lookup, kept
separate so it can be compared with `get_model_at_index` above. -/
def get_at_index_spec {H : Type} (llms : List (ModelEntry H)) (index : Int) :
    Option (ModelEntry H) :=
  llms.get? (index % (llms.length : Int)).toNat

/-- Total cyclic indexing into the registry, used to phrase theorems about
in-range registry positions. -/
def entryAt {H : Type} [Inhabited H] (llms : List (ModelEntry H)) (i : Nat) :
    ModelEntry H :=
  (llms.get? (i % llms.length)).getD default

/-- The mutable state of an `LLMService` instance: the current handle
`self._llm` and the cursor `self._current_model_index`. -/
structure ServiceState (H : Type) where
  llm : Option H
  currentModelIndex : Nat
deriving DecidableEq

/-- `LLMService.__init__`: cursor at the default model's index when its name
is registered, otherwise at 0 with the first registered handle; `none`
models the `RuntimeError` raised when the registry is empty. -/
def initService {H : Type} [Inhabited H] (llms : List (ModelEntry H))
    (defaultModel : String) : Option (ServiceState H) :=
  match indexOfName llms defaultModel with
  | some i => some ⟨some (entryAt llms i).llm, i⟩
  | none =>
    match llms with
    | [] => none
    | e :: _ => some ⟨some e.llm, 0⟩

/-- `LLMService._switch_to_next_model`: advance the cursor by one modulo the
registry length and install that entry's handle; `none` models the
`False` return taken when an exception occurs (division by zero on an
empty registry, or an empty-registry lookup). -/
def switch_to_next_model {H : Type} (llms : List (ModelEntry H))
    (s : ServiceState H) : Option (ServiceState H) :=
  if llms.length = 0 then none
  else
    let next := (s.currentModelIndex + 1) % llms.length
    match get_model_at_index llms (next : Int) with
    | some e => some ⟨some e.llm, next⟩
    | none => none

/-- One body of `call`'s while loop up to the except-clause: invoke the
retry unit on the current handle.  A missing handle raises
`RuntimeError("llm not initialized")` (which the loop catches like any
other failure); the second component records which handles were invoked. -/
def attemptCurrent {H : Type} (rc : H → Except String String)
    (s : ServiceState H) : Except String String × List H :=
  match s.llm with
  | none => (Except.error "llm not initialized", [])
  | some h => (rc h, [h])

/-- The message of the terminal `RuntimeError` raised by `call` once the
fallback cycle is exhausted (Python renders `str(None)` as "None"). -/
def aggMsg (tried : Nat) (lastErr : Option String) : String :=
  "failed to get response from llm after trying " ++ toString tried
    ++ " models. last error: "
    ++ (match lastErr with | some e => e | none => "None")

/-- The observable outcome of one `call` invocation: the returned response
or raised error, the service state afterwards, the final `models_tried`
counter, and the handles invoked (in order). -/
structure CallOutcome (H : Type) where
  result : Except String String
  finalState : ServiceState H
  modelsTried : Nat
  invoked : List H
deriving DecidableEq

/-- The `while models_tried < total_models` loop of `LLMService.call`.
`fuel` is `total_models - models_tried`, so the zero case is the loop
guard failing; the body attempts the current handle, returns on success,
and on failure increments the counter, breaks when the cycle is
exhausted or the switch fails, and otherwise rotates to the next model. -/
def callLoop {H : Type} (llms : List (ModelEntry H))
    (rc : H → Except String String) :
    Nat → ServiceState H → Nat → Option String → List H → CallOutcome H
  | 0, s, tried, lastErr, inv => ⟨Except.error (aggMsg tried lastErr), s, tried, inv⟩
  | fuel + 1, s, tried, _lastErr, inv =>
    match attemptCurrent rc s with
    | (Except.ok resp, ih) => ⟨Except.ok resp, s, tried, inv ++ ih⟩
    | (Except.error e, ih) =>
      if llms.length ≤ tried + 1 then
        ⟨Except.error (aggMsg (tried + 1) (some e)), s, tried + 1, inv ++ ih⟩
      else
        match switch_to_next_model llms s with
        | some s2 => callLoop llms rc fuel s2 (tried + 1) (some e) (inv ++ ih)
        | none => ⟨Except.error (aggMsg (tried + 1) (some e)), s, tried + 1, inv ++ ih⟩

/-- `LLMService.call(messages, model_name)`: an explicit model name is
resolved first (a not-found error propagates immediately, before the
fallback loop, leaving the state untouched); then the circular-fallback
loop runs starting from the current state with `models_tried = 0`. -/
def call {H : Type} (llms : List (ModelEntry H))
    (rc : H → Except String String) (s : ServiceState H)
    (modelName : Option String) : CallOutcome H :=
  match modelName with
  | none => callLoop llms rc llms.length s 0 none []
  | some name =>
    match registryGet llms name with
    | Except.error e => ⟨Except.error e, s, 0, []⟩
    | Except.ok h =>
      let idx := match indexOfName llms name with
        | some i => i
        | none => s.currentModelIndex
      callLoop llms rc llms.length ⟨some h, idx⟩ 0 none []

/-- An operation on a running service, for stating state invariants:
a `call` (with an optional explicit model name), a bare cursor rotation,
or a re-initialization. -/
inductive ServiceOp (H : Type) where
  | callOp (rc : H → Except String String) (modelName : Option String)
  | rotateOp
  | initOp (defaultModel : String)

/-- The state transition performed by one `ServiceOp` (a failed rotation or
re-initialization leaves the state unchanged, as the Python method
returns `False` / raises before mutating). -/
def stepOp {H : Type} [Inhabited H] (llms : List (ModelEntry H))
    (s : ServiceState H) : ServiceOp H → ServiceState H
  | ServiceOp.callOp rc modelName => (call llms rc s modelName).finalState
  | ServiceOp.rotateOp =>
    match switch_to_next_model llms s with
    | some s2 => s2
    | none => s
  | ServiceOp.initOp d =>
    match initService llms d with
    | some s2 => s2
    | none => s

/-- `LLMService.bind_tools(tools)`: when a current handle exists it is
replaced by its tool-bound version (`bindT` abstracts
`BaseChatModel.bind_tools`); otherwise nothing changes.  The method
returns `self`, i.e. the (updated) service itself. -/
def bind_tools {H T : Type} (bindT : H → List T → H) (s : ServiceState H)
    (tools : List T) : ServiceState H :=
  match s.llm with
  | none => s
  | some h => ⟨some (bindT h tools), s.currentModelIndex⟩

/-- A two-model registry over `H = Nat` used for concrete counterexamples
and witnesses. -/
def demoReg : List (ModelEntry Nat) := [⟨"alpha", 0⟩, ⟨"beta", 1⟩]

/-- The outcome of one underlying invocation attempt inside
`_call_llm_with_retry`: success, or an exception classified by
`_get_retry_exceptions` as retryable (`True`) or not (`False`).  The
classification only drives which log line is emitted; both branches
re-raise. -/
inductive AttemptOutcome where
  | ok (resp : String)
  | err (retryable : Bool) (msg : String)
deriving DecidableEq

/-- The observable outcome of `_call_llm_with_retry`: the returned response
or the re-raised exception (with its retryable flag), the number of
invocation attempts made, and the number of backoff sleeps performed. -/
structure RetryResult where
  result : Except (Bool × String) String
  attempts : Nat
  sleeps : Nat
deriving DecidableEq

/-- The tenacity retry loop around `_call_llm_with_retry`.  The decorator
uses `retry_if_exception_type((Exception,))`, so EVERY raised exception
is retried (with a backoff sleep) until `stop_after_attempt` fires, and
`reraise=True` re-raises the last exception; the first attempt always
runs even when no further attempts remain. -/
def retryGo (beh : Nat → AttemptOutcome) : Nat → Nat → RetryResult
  | fuel, k =>
    match beh k with
    | AttemptOutcome.ok r => ⟨Except.ok r, 1, 0⟩
    | AttemptOutcome.err b m =>
      match fuel with
      | 0 => ⟨Except.error (b, m), 1, 0⟩
      | 1 => ⟨Except.error (b, m), 1, 0⟩
      | n + 2 =>
        let rest := retryGo beh (n + 1) (k + 1)
        ⟨rest.result, rest.attempts + 1, rest.sleeps + 1⟩

/-- `_call_llm_with_retry` under `stop_after_attempt(R)` where `R` is
`settings.MAX_LLM_CALL_RETRIES`: attempt `k` of the underlying handle
behaves as `beh k`. -/
def call_llm_with_retry (beh : Nat → AttemptOutcome) (R : Nat) : RetryResult :=
  retryGo beh R 0

/-- One serialized `StreamResponse` of the plain streaming endpoint: a token
chunk (`done = false`), the completion marker (`content = "", done = true`),
or the error marker (`content = str(e), done = true`). -/
structure StreamResponse where
  content : String
  done : Bool
deriving DecidableEq

/-- `chat_stream.event_generator`: the underlying feed delivers the listed
chunks in order and then either completes normally (`none`) or raises
with the given message (`some e`); each chunk is forwarded immediately as
a non-done event and exactly one done event closes the sequence. -/
def event_generator : List String × Option String → List StreamResponse
  | ([], none) => [⟨"", true⟩]
  | ([], some e) => [⟨e, true⟩]
  | (c :: rest, t) => ⟨c, false⟩ :: event_generator (rest, t)

/-- The `event_type` literal of a `CopilotEvent`. -/
inductive CopilotEventType where
  | assistant_token
  | tool_call_start
  | tool_call_end
  | final
  | error
deriving DecidableEq

/-- The CopilotKit-compatible streaming event schema (`CopilotEvent`);
metadata is modelled as an optional association list. -/
structure CopilotEvent where
  event_type : CopilotEventType
  content : Option String
  metadata : Option (List (String × String))
deriving DecidableEq

/-- Whether an event closes the stream (a `final` or `error` event). -/
def CopilotEvent.isTerminal (e : CopilotEvent) : Bool :=
  match e.event_type with
  | CopilotEventType.final => true
  | CopilotEventType.error => true
  | _ => false

/-- The completion event `copilot_event_generator` appends on normal
termination. -/
def copilotFinalEvent (sid : String) : CopilotEvent :=
  ⟨CopilotEventType.final, some "", some [("session_id", sid)]⟩

/-- The error event `copilot_event_generator` emits when the feed raises. -/
def copilotErrorEvent (sid : String) (e : String) : CopilotEvent :=
  ⟨CopilotEventType.error, some e, some [("session_id", sid)]⟩

/-- The shape of one increment of the underlying copilot feed
(`agent.get_copilot_stream_events` yields token and tool-call lifecycle
events; terminal events are produced only by the generator itself). -/
inductive IncrementKind where
  | assistant_token
  | tool_call_start
  | tool_call_end
deriving DecidableEq

/-- One increment of the underlying copilot feed. -/
structure CopilotIncrement where
  kind : IncrementKind
  content : Option String
  metadata : Option (List (String × String))
deriving DecidableEq

/-- The event re-emitted verbatim for one feed increment. -/
def incrementEvent (i : CopilotIncrement) : CopilotEvent :=
  ⟨match i.kind with
    | IncrementKind.assistant_token => CopilotEventType.assistant_token
    | IncrementKind.tool_call_start => CopilotEventType.tool_call_start
    | IncrementKind.tool_call_end => CopilotEventType.tool_call_end,
   i.content, i.metadata⟩

/-- `chat_copilot_stream.copilot_event_generator`: each feed increment is
re-emitted in arrival order; normal completion appends the `final`
event, and a raise after any prefix yields the `error` event instead. -/
def copilot_event_generator (sid : String) :
    List CopilotIncrement × Option String → List CopilotEvent
  | ([], none) => [copilotFinalEvent sid]
  | ([], some e) => [copilotErrorEvent sid e]
  | (i :: rest, t) => incrementEvent i :: copilot_event_generator sid (rest, t)

/-- The characters of the literal "<script" opening the harmful-content
pattern of `Message.validate_content`. -/
def openChars : List Char := String.toList "<script"

/-- The characters of the literal "</script>" closing the harmful-content
pattern of `Message.validate_content`. -/
def closeChars : List Char := String.toList "</script>"

/-- Strip an expected literal from the front of a character list. -/
def dropLit : List Char → List Char → Option (List Char)
  | [], l => some l
  | _ :: _, [] => none
  | p :: ps, c :: cs => if c = p then dropLit ps cs else none

/-- Whether `pat` occurs as a contiguous run somewhere in `l`. -/
def hasSub (pat : List Char) : List Char → Bool
  | [] => (dropLit pat []).isSome
  | c :: rest => (dropLit pat (c :: rest)).isSome || hasSub pat rest

/-- Whether `l` splits as `a ++ '>' :: b` with `pat` occurring in `b`
 (the `.*?>` step of the regex followed by the closing literal). -/
def scanGt (pat : List Char) : List Char → Bool
  | [] => false
  | c :: rest => (decide (c = '>') && hasSub pat rest) || scanGt pat rest

/-- Whether the regex `<script.*?>.*?</script>` (DOTALL) matches somewhere
in `l`: an occurrence of "<script", then any characters up to a '>',
then any characters up to an occurrence of "</script>". -/
def scanOpenTag : List Char → Bool
  | [] => false
  | c :: rest =>
    (match dropLit openChars (c :: rest) with
     | some after => scanGt closeChars after
     | none => false) || scanOpenTag rest

/-- The `re.search` of `Message.validate_content` with `IGNORECASE` and
`DOTALL` (case-insensitivity modelled as ASCII lowercasing of the
subject; the pattern is already lowercase). -/
def scriptMatch (v : String) : Bool :=
  scanOpenTag (v.toLower.toList)

/-- Declarative reading of the script-tag pattern: the lowercased content
contains `<script`, then some characters, a `>`, some characters, and
`</script>`. -/
def scriptTagProp (v : String) : Prop :=
  ∃ p a b t, v.toLower.toList
    = p ++ (openChars ++ (a ++ ('>' :: (b ++ (closeChars ++ t)))))

/-- `Message.content` validation: pydantic's `min_length=1` and
`max_length=3000` field constraints followed by `validate_content`'s
script-tag and null-byte checks; valid content is returned unchanged. -/
def validate_content (v : String) : Except String String :=
  if v.length < 1 then Except.error "String should have at least 1 character"
  else if 3000 < v.length then Except.error "String should have at most 3000 characters"
  else if scriptMatch v then Except.error "Content contains potentially harmful script tags"
  else if Char.ofNat 0 ∈ v.toList then Except.error "Content contains null bytes"
  else Except.ok v

/-! ### Helper lemmas about the registry and the fallback loop -/

theorem indexOfName_lt {H : Type} (llms : List (ModelEntry H)) (name : String)
    (i : Nat) (h : indexOfName llms name = some i) : i < llms.length := by
  induction llms generalizing i with
  | nil => simp [indexOfName] at h
  | cons e rest ih =>
    by_cases he : e.name = name
    · simp [indexOfName, he] at h
      simp [← h]
    · simp [indexOfName, he] at h
      obtain ⟨j, hj, hji⟩ := h
      have := ih j hj
      simp
      omega

theorem entryAt_mod_add {H : Type} [Inhabited H] (llms : List (ModelEntry H))
    (a b : Nat) :
    entryAt llms (a % llms.length + b) = entryAt llms (a + b) := by
  unfold entryAt
  have hmod : (a % llms.length + b) % llms.length = (a + b) % llms.length := by
    rw [Nat.add_mod, Nat.mod_mod_of_dvd a dvd_rfl, ← Nat.add_mod]
  rw [hmod]

theorem entryAt_mod {H : Type} [Inhabited H] (llms : List (ModelEntry H)) (a : Nat) :
    entryAt llms (a % llms.length) = entryAt llms a := by
  simpa using entryAt_mod_add llms a 0

theorem entryAt_eq_get {H : Type} [Inhabited H] (llms : List (ModelEntry H))
    (k : Nat) (hpos : 0 < llms.length) :
    entryAt llms k = llms.get ⟨k % llms.length, Nat.mod_lt _ hpos⟩ := by
  unfold entryAt
  rw [List.get?_eq_get (Nat.mod_lt _ hpos)]
  rfl

theorem get_model_at_index_natCast {H : Type} [Inhabited H]
    (llms : List (ModelEntry H)) (k : Nat) (hk : k < llms.length) :
    get_model_at_index llms (k : Int) = some (entryAt llms k) := by
  unfold get_model_at_index entryAt
  rw [if_pos ⟨Int.natCast_nonneg k, by exact_mod_cast hk⟩]
  rw [Int.toNat_natCast, Nat.mod_eq_of_lt hk, List.get?_eq_get hk]
  rfl

theorem switch_to_next_model_eq {H : Type} [Inhabited H]
    (llms : List (ModelEntry H)) (s : ServiceState H) (hne : llms.length ≠ 0) :
    switch_to_next_model llms s =
      some ⟨some (entryAt llms (s.currentModelIndex + 1)).llm,
            (s.currentModelIndex + 1) % llms.length⟩ := by
  unfold switch_to_next_model
  rw [if_neg hne]
  have hlt : (s.currentModelIndex + 1) % llms.length < llms.length :=
    Nat.mod_lt _ (Nat.pos_of_ne_zero hne)
  simp only [get_model_at_index_natCast llms _ hlt, entryAt_mod]

theorem callLoop_succ_ok {H : Type} (llms : List (ModelEntry H))
    (rc : H → Except String String) (fuel : Nat) (s : ServiceState H) (h : H)
    (resp : String) (tried : Nat) (le : Option String) (inv : List H)
    (hllm : s.llm = some h) (hok : rc h = Except.ok resp) :
    callLoop llms rc (fuel + 1) s tried le inv
      = ⟨Except.ok resp, s, tried, inv ++ [h]⟩ := by
  simp [callLoop, attemptCurrent, hllm, hok]

theorem callLoop_succ_fail_break {H : Type} (llms : List (ModelEntry H))
    (rc : H → Except String String) (fuel : Nat) (s : ServiceState H) (h : H)
    (e : String) (tried : Nat) (le : Option String) (inv : List H)
    (hllm : s.llm = some h) (herr : rc h = Except.error e)
    (hbr : llms.length ≤ tried + 1) :
    callLoop llms rc (fuel + 1) s tried le inv
      = ⟨Except.error (aggMsg (tried + 1) (some e)), s, tried + 1, inv ++ [h]⟩ := by
  simp [callLoop, attemptCurrent, hllm, herr, hbr]

theorem callLoop_succ_fail_switch {H : Type} [Inhabited H]
    (llms : List (ModelEntry H)) (rc : H → Except String String) (fuel : Nat)
    (s : ServiceState H) (h : H) (e : String) (tried : Nat) (le : Option String)
    (inv : List H) (hllm : s.llm = some h) (herr : rc h = Except.error e)
    (hbr : ¬ llms.length ≤ tried + 1) :
    callLoop llms rc (fuel + 1) s tried le inv
      = callLoop llms rc fuel
          ⟨some (entryAt llms (s.currentModelIndex + 1)).llm,
           (s.currentModelIndex + 1) % llms.length⟩
          (tried + 1) (some e) (inv ++ [h]) := by
  have hne : llms.length ≠ 0 := by omega
  simp [callLoop, attemptCurrent, hllm, herr, hbr, switch_to_next_model_eq llms s hne]

theorem callLoop_allFail {H : Type} [Inhabited H] (llms : List (ModelEntry H))
    (rc : H → Except String String) (f : H → String)
    (hrc : ∀ h, rc h = Except.error (f h)) :
    ∀ (fuel c tried : Nat) (lastErr : Option String) (inv : List H),
      fuel ≠ 0 → c < llms.length → fuel + tried = llms.length →
      ∃ st, callLoop llms rc fuel ⟨some (entryAt llms c).llm, c⟩ tried lastErr inv
        = ⟨Except.error (aggMsg (tried + fuel)
              (some (f (entryAt llms (c + (fuel - 1))).llm))),
           st, tried + fuel,
           inv ++ (List.range fuel).map (fun j => (entryAt llms (c + j)).llm)⟩ := by
  intro fuel
  induction fuel with
  | zero => intro c tried le inv h0; exact absurd rfl h0
  | succ m ih =>
    intro c tried le inv _ hc hft
    by_cases hbr : llms.length ≤ tried + 1
    · have hm : m = 0 := by omega
      subst hm
      refine ⟨⟨some (entryAt llms c).llm, c⟩, ?_⟩
      rw [callLoop_succ_fail_break llms rc 0 _ _ _ tried le inv rfl (hrc _) hbr]
      simp [List.range_succ]
    · have hne : llms.length ≠ 0 := by omega
      have hm : m ≠ 0 := by omega
      rw [callLoop_succ_fail_switch llms rc m _ _ _ tried le inv rfl (hrc _) hbr]
      have hc' : (c + 1) % llms.length < llms.length :=
        Nat.mod_lt _ (Nat.pos_of_ne_zero hne)
      obtain ⟨st, hst⟩ := ih ((c + 1) % llms.length) (tried + 1)
        (some (f (entryAt llms c).llm)) (inv ++ [(entryAt llms c).llm]) hm hc'
        (by omega)
      simp only [entryAt_mod_add, entryAt_mod] at hst
      refine ⟨st, ?_⟩
      rw [hst]
      have e1 : tried + 1 + m = tried + (m + 1) := by omega
      have e2 : c + 1 + (m - 1) = c + (m + 1 - 1) := by omega
      have e3 : (List.range (m + 1)).map (fun j => (entryAt llms (c + j)).llm)
          = (entryAt llms c).llm
            :: (List.range m).map (fun j => (entryAt llms (c + 1 + j)).llm) := by
        rw [List.range_succ_eq_map, List.map_cons, List.map_map]
        simp only [Nat.add_zero]
        congr 1
        apply List.map_congr_left
        intro j _
        have : c + Nat.succ j = c + 1 + j := by omega
        simp [Function.comp, this]
      rw [e1, e2, e3]
      simp

/-! ### Claim theorems -/

/-- C1 counterexample: `get_model_at_index` does NOT reduce the index modulo
the registry length.  On the two-entry registry, index `3` (which is
`N + 1` with `N = 2`, and `3 mod 2 = 1`) yields the entry at position 0,
not the entry at position 1 demanded by the spec's `index mod length`
reading (embodied by `get_at_index_spec`). -/
theorem get_model_at_index_not_modular :
    demoReg.length = 2
    ∧ get_model_at_index demoReg 3 = some ⟨"alpha", 0⟩
    ∧ get_at_index_spec demoReg 3 = some ⟨"beta", 1⟩
    ∧ get_model_at_index demoReg 3 ≠ get_at_index_spec demoReg 3 := by
  decide

/-- C1 (amended): for a nonempty registry, `get_model_at_index i` returns the
entry at position `i` when `0 ≤ i < N`, and otherwise (negative or
too-large index) the entry at position 0; it never fails for `N ≥ 1`. -/
theorem get_model_at_index_amended {H : Type} (llms : List (ModelEntry H))
    (i : Int) (hne : llms ≠ []) :
    ((0 ≤ i ∧ i < (llms.length : Int)) →
        get_model_at_index llms i = llms.get? i.toNat
        ∧ (llms.get? i.toNat).isSome = true)
    ∧ (¬(0 ≤ i ∧ i < (llms.length : Int)) →
        get_model_at_index llms i = llms.head?) := by
  constructor
  · intro h
    unfold get_model_at_index
    rw [if_pos h]
    have hlt : i.toNat < llms.length := by omega
    exact ⟨rfl, by rw [List.get?_eq_get hlt]; rfl⟩
  · intro h
    unfold get_model_at_index
    rw [if_neg h]
    cases llms with
    | nil => exact absurd rfl hne
    | cons e rest => rfl

/-- C1 witness: the amended statement instantiated on the two-entry registry
at the out-of-range index 3. -/
theorem get_model_at_index_amended_witness :
    demoReg ≠ []
    ∧ (((0 ≤ (3 : Int) ∧ (3 : Int) < (demoReg.length : Int)) →
          get_model_at_index demoReg 3 = demoReg.get? (3 : Int).toNat
          ∧ (demoReg.get? (3 : Int).toNat).isSome = true)
        ∧ (¬(0 ≤ (3 : Int) ∧ (3 : Int) < (demoReg.length : Int)) →
          get_model_at_index demoReg 3 = demoReg.head?)) :=
  ⟨by decide, get_model_at_index_amended demoReg 3 (by decide)⟩

/-- C2: evaluating the retry unit at the failing input.  With
`MAX_LLM_CALL_RETRIES = 3` and a handle that always raises a
NON-retryable exception, the tenacity loop (whose predicate is
`retry_if_exception_type((Exception,))`) still makes 3 invocation
attempts with 2 backoff sleeps before re-raising — not the immediate
single-attempt failure the spec requires. -/
theorem retry_nonretryable_consumes_all_attempts :
    call_llm_with_retry (fun _ => AttemptOutcome.err false "invalid request") 3
      = ⟨Except.error (false, "invalid request"), 3, 2⟩
    ∧ (call_llm_with_retry (fun _ => AttemptOutcome.err false "invalid request") 3).attempts ≠ 1
    ∧ (call_llm_with_retry (fun _ => AttemptOutcome.err false "invalid request") 3).sleeps ≠ 0 := by
  decide

/-- C6: requesting an explicit model name absent from the registry makes
`call` fail immediately with the registry's not-found error; no backend
handle is invoked, the fallback loop never runs, and the service state
(cursor and current handle) is exactly as before. -/
theorem call_unknown_model_immediate_failure {H : Type}
    (llms : List (ModelEntry H)) (rc : H → Except String String)
    (s : ServiceState H) (name : String)
    (habs : ∀ e ∈ llms, e.name ≠ name) :
    call llms rc s (some name) =
      ⟨Except.error (notFoundMsg name (llms.map (fun e => e.name))), s, 0, []⟩ := by
  have hfind : llms.find? (fun e => e.name == name) = none := by
    rw [List.find?_eq_none]
    intro e he
    simpa using habs e he
  simp [call, registryGet, hfind]

/-- C6 witness: requesting "gamma" on the two-entry registry. -/
theorem call_unknown_model_immediate_failure_witness :
    (∀ e ∈ demoReg, e.name ≠ "gamma")
    ∧ call demoReg (fun _ => Except.ok "r") ⟨some 0, 1⟩ (some "gamma") =
        ⟨Except.error (notFoundMsg "gamma" (demoReg.map (fun e => e.name))),
         ⟨some 0, 1⟩, 0, []⟩ :=
  ⟨by decide,
   call_unknown_model_immediate_failure demoReg (fun _ => Except.ok "r")
     ⟨some 0, 1⟩ "gamma" (by decide)⟩

/-- C10: `bind_tools` is the identity when no current handle exists (silent
no-op, no error), and otherwise replaces only the current handle by its
tool-bound version, leaving the cursor unchanged; the next invocation
attempt then uses the bound handle. -/
theorem bind_tools_frame {H T : Type} (bindT : H → List T → H)
    (rc : H → Except String String) (c : Nat) (h : H) (tools : List T) :
    bind_tools bindT ⟨none, c⟩ tools = ⟨none, c⟩
    ∧ bind_tools bindT ⟨some h, c⟩ tools = ⟨some (bindT h tools), c⟩
    ∧ attemptCurrent rc (bind_tools bindT ⟨some h, c⟩ tools)
        = (rc (bindT h tools), [bindT h tools]) :=
  ⟨rfl, rfl, rfl⟩

/-- C3 counterexample: with both registry models always failing, `call`
raises the aggregate error whose concrete message carries the attempt
count and the last error but does NOT contain the starting model's name
("alpha") anywhere. -/
theorem aggregate_error_omits_starting_model :
    demoReg.map (fun e => e.name) = ["alpha", "beta"]
    ∧ (call demoReg (fun _ => Except.error "boom") ⟨some 0, 0⟩ none).result
      = Except.error
          "failed to get response from llm after trying 2 models. last error: boom"
    ∧ hasSub ("alpha".toList)
        ("failed to get response from llm after trying 2 models. last error: boom".toList)
      = false := by
  decide

/-- C3 (amended): when the whole fallback cycle fails, the raised aggregate
error message names the number of models attempted (`N`) and the last
underlying error message — but not the starting model, which appears
only in a log line. -/
theorem aggregate_error_message_format {H : Type} [Inhabited H]
    (llms : List (ModelEntry H)) (rc : H → Except String String)
    (f : H → String) (c : Nat) (hc : c < llms.length)
    (hrc : ∀ h, rc h = Except.error (f h)) :
    (call llms rc ⟨some (entryAt llms c).llm, c⟩ none).result =
      Except.error ("failed to get response from llm after trying "
        ++ toString llms.length ++ " models. last error: "
        ++ f (entryAt llms (c + (llms.length - 1))).llm) := by
  have hne : llms.length ≠ 0 := by omega
  obtain ⟨st, hst⟩ :=
    callLoop_allFail llms rc f hrc llms.length c 0 none [] hne hc (by omega)
  show (callLoop llms rc llms.length ⟨some (entryAt llms c).llm, c⟩ 0 none []).result = _
  rw [hst]
  simp [aggMsg]

/-- C3 witness: the amended message-format statement instantiated on the
two-entry registry with per-handle error messages. -/
theorem aggregate_error_message_format_witness :
    (0 < demoReg.length ∧ ∀ h, (fun h => Except.error (String.append "e" (toString h)) : Nat → Except String String) h = Except.error ((fun h => String.append "e" (toString h)) h))
    ∧ (call demoReg (fun h => Except.error (String.append "e" (toString h)))
        ⟨some (entryAt demoReg 0).llm, 0⟩ none).result =
      Except.error ("failed to get response from llm after trying "
        ++ toString demoReg.length ++ " models. last error: "
        ++ (fun h => String.append "e" (toString h)) (entryAt demoReg (0 + (demoReg.length - 1))).llm) :=
  ⟨⟨by decide, fun h => rfl⟩,
   aggregate_error_message_format demoReg
     (fun h => Except.error (String.append "e" (toString h)))
     (fun h => String.append "e" (toString h)) 0 (by decide) (fun h => rfl)⟩

theorem rangeEntry_eq_rotate {H : Type} [Inhabited H]
    (llms : List (ModelEntry H)) (c : Nat) (hpos : 0 < llms.length) :
    (List.range llms.length).map (fun j => (entryAt llms (c + j)).llm)
      = (llms.map (fun e => e.llm)).rotate c := by
  apply List.ext_get
  · simp [List.length_rotate]
  · intro i h1 h2
    have hi : i < llms.length := by simpa using h1
    have hrot := List.get_rotate (llms.map (fun e => e.llm)) c ⟨i, h2⟩
    rw [hrot]
    simp only [List.getElem_map, List.get_eq_getElem, List.getElem_range]
    rw [entryAt_eq_get llms (c + i) hpos]
    simp only [List.get_eq_getElem, List.getElem_map]
    congr 2
    rw [Nat.add_comm, List.length_map]

/-- C5: when every model's invocation always fails, `call` raises a terminal
failure, its `models_tried` counter equals the registry size `N`, and the
multiset of invoked handles is exactly the registry's handles — each
registered model tried once, never fewer and never more. -/
theorem call_all_fail_tries_each_model_once {H : Type} [Inhabited H]
    (llms : List (ModelEntry H)) (rc : H → Except String String)
    (f : H → String) (c : Nat) (hc : c < llms.length)
    (hrc : ∀ h, rc h = Except.error (f h)) :
    (∃ msg, (call llms rc ⟨some (entryAt llms c).llm, c⟩ none).result
        = Except.error msg)
    ∧ (call llms rc ⟨some (entryAt llms c).llm, c⟩ none).modelsTried
        = llms.length
    ∧ List.Perm (call llms rc ⟨some (entryAt llms c).llm, c⟩ none).invoked
        (llms.map (fun e => e.llm)) := by
  have hne : llms.length ≠ 0 := by omega
  obtain ⟨st, hst⟩ :=
    callLoop_allFail llms rc f hrc llms.length c 0 none [] hne hc (by omega)
  have hcall : call llms rc ⟨some (entryAt llms c).llm, c⟩ none
      = callLoop llms rc llms.length ⟨some (entryAt llms c).llm, c⟩ 0 none [] := rfl
  rw [hcall, hst]
  refine ⟨⟨_, rfl⟩, by simp, ?_⟩
  simp only [List.nil_append]
  rw [rangeEntry_eq_rotate llms c (Nat.pos_of_ne_zero hne)]
  exact List.rotate_perm (llms.map (fun e => e.llm)) c

/-- C5 witness: both models of the two-entry registry always fail. -/
theorem call_all_fail_tries_each_model_once_witness :
    (0 < demoReg.length
      ∧ ∀ h : Nat, (fun h => Except.error (String.append "e" (toString h)) : Nat → Except String String) h
          = Except.error ((fun h => String.append "e" (toString h)) h))
    ∧ ((∃ msg, (call demoReg (fun h => Except.error (String.append "e" (toString h)))
          ⟨some (entryAt demoReg 0).llm, 0⟩ none).result = Except.error msg)
      ∧ (call demoReg (fun h => Except.error (String.append "e" (toString h)))
          ⟨some (entryAt demoReg 0).llm, 0⟩ none).modelsTried = demoReg.length
      ∧ List.Perm (call demoReg (fun h => Except.error (String.append "e" (toString h)))
          ⟨some (entryAt demoReg 0).llm, 0⟩ none).invoked
          (demoReg.map (fun e => e.llm))) :=
  ⟨⟨by decide, fun h => rfl⟩,
   call_all_fail_tries_each_model_once demoReg
     (fun h => Except.error (String.append "e" (toString h)))
     (fun h => String.append "e" (toString h)) 0 (by decide) (fun h => rfl)⟩

/-- C4: with the model at cursor `c` always failing and its successor
succeeding, `call` returns that successor's response after exactly one
fallback rotation; the cursor afterwards equals `(c+1) mod N`, and a
subsequent `call` succeeds from that same cursor without moving it
(sticky, not reset). -/
theorem call_one_rotation_sticky_cursor {H : Type} [Inhabited H]
    (llms : List (ModelEntry H)) (rc : H → Except String String)
    (c : Nat) (em resp : String)
    (hN : 2 ≤ llms.length) (hc : c < llms.length)
    (hfail : rc (entryAt llms c).llm = Except.error em)
    (hok : rc (entryAt llms (c + 1)).llm = Except.ok resp) :
    (call llms rc ⟨some (entryAt llms c).llm, c⟩ none).result = Except.ok resp
    ∧ (call llms rc ⟨some (entryAt llms c).llm, c⟩ none).modelsTried = 1
    ∧ (call llms rc ⟨some (entryAt llms c).llm, c⟩ none).finalState
        = ⟨some (entryAt llms (c + 1)).llm, (c + 1) % llms.length⟩
    ∧ (call llms rc
        ((call llms rc ⟨some (entryAt llms c).llm, c⟩ none).finalState) none).result
        = Except.ok resp
    ∧ (call llms rc
        ((call llms rc ⟨some (entryAt llms c).llm, c⟩ none).finalState) none).finalState
        = ⟨some (entryAt llms (c + 1)).llm, (c + 1) % llms.length⟩ := by
  obtain ⟨n, hn⟩ : ∃ n, llms.length = n + 2 := ⟨llms.length - 2, by omega⟩
  have h1 : call llms rc ⟨some (entryAt llms c).llm, c⟩ none
      = ⟨Except.ok resp, ⟨some (entryAt llms (c + 1)).llm, (c + 1) % llms.length⟩,
         1, [(entryAt llms c).llm, (entryAt llms (c + 1)).llm]⟩ := by
    have hstep : call llms rc ⟨some (entryAt llms c).llm, c⟩ none
        = callLoop llms rc llms.length ⟨some (entryAt llms c).llm, c⟩ 0 none [] := rfl
    rw [hstep, hn]
    rw [callLoop_succ_fail_switch llms rc (n + 1) _ _ _ 0 none [] rfl hfail
      (by omega)]
    simp only
    rw [callLoop_succ_ok llms rc n _ _ _ 1 (some em) _ rfl hok]
    simp [hn]
  have h2 : call llms rc
      (⟨some (entryAt llms (c + 1)).llm, (c + 1) % llms.length⟩ : ServiceState H) none
      = ⟨Except.ok resp, ⟨some (entryAt llms (c + 1)).llm, (c + 1) % llms.length⟩,
         0, [(entryAt llms (c + 1)).llm]⟩ := by
    have hstep : call llms rc
        (⟨some (entryAt llms (c + 1)).llm, (c + 1) % llms.length⟩ : ServiceState H) none
        = callLoop llms rc llms.length
            ⟨some (entryAt llms (c + 1)).llm, (c + 1) % llms.length⟩ 0 none [] := rfl
    rw [hstep, hn]
    rw [callLoop_succ_ok llms rc (n + 1) _ _ _ 0 none [] rfl hok]
    simp [hn]
  rw [h1]
  exact ⟨rfl, rfl, rfl, by rw [h2], by rw [h2]⟩

/-- C4 witness: on the two-entry registry, handle 0 fails and handle 1
succeeds; the cursor moves from 0 to 1 and sticks. -/
theorem call_one_rotation_sticky_cursor_witness :
    (2 ≤ demoReg.length ∧ 0 < demoReg.length
      ∧ (fun h => if h = 0 then Except.error "e0" else Except.ok "resp"
          : Nat → Except String String) (entryAt demoReg 0).llm = Except.error "e0"
      ∧ (fun h => if h = 0 then Except.error "e0" else Except.ok "resp"
          : Nat → Except String String) (entryAt demoReg (0 + 1)).llm = Except.ok "resp")
    ∧ ((call demoReg (fun h => if h = 0 then Except.error "e0" else Except.ok "resp")
          ⟨some (entryAt demoReg 0).llm, 0⟩ none).result = Except.ok "resp"
      ∧ (call demoReg (fun h => if h = 0 then Except.error "e0" else Except.ok "resp")
          ⟨some (entryAt demoReg 0).llm, 0⟩ none).modelsTried = 1
      ∧ (call demoReg (fun h => if h = 0 then Except.error "e0" else Except.ok "resp")
          ⟨some (entryAt demoReg 0).llm, 0⟩ none).finalState
          = ⟨some (entryAt demoReg (0 + 1)).llm, (0 + 1) % demoReg.length⟩
      ∧ (call demoReg (fun h => if h = 0 then Except.error "e0" else Except.ok "resp")
          ((call demoReg (fun h => if h = 0 then Except.error "e0" else Except.ok "resp")
            ⟨some (entryAt demoReg 0).llm, 0⟩ none).finalState) none).result
          = Except.ok "resp"
      ∧ (call demoReg (fun h => if h = 0 then Except.error "e0" else Except.ok "resp")
          ((call demoReg (fun h => if h = 0 then Except.error "e0" else Except.ok "resp")
            ⟨some (entryAt demoReg 0).llm, 0⟩ none).finalState) none).finalState
          = ⟨some (entryAt demoReg (0 + 1)).llm, (0 + 1) % demoReg.length⟩) :=
  ⟨⟨by decide, by decide, by decide, by decide⟩,
   call_one_rotation_sticky_cursor demoReg
     (fun h => if h = 0 then Except.error "e0" else Except.ok "resp")
     0 "e0" "resp" (by decide) (by decide) (by decide) (by decide)⟩

theorem callLoop_cursor_lt {H : Type} [Inhabited H] (llms : List (ModelEntry H))
    (rc : H → Except String String) :
    ∀ (fuel : Nat) (s : ServiceState H) (tried : Nat) (le : Option String)
      (inv : List H), s.currentModelIndex < llms.length →
      (callLoop llms rc fuel s tried le inv).finalState.currentModelIndex
        < llms.length := by
  intro fuel
  induction fuel with
  | zero => intro s tried le inv h; exact h
  | succ m ih =>
    intro s tried le inv h
    rcases hllm : s.llm with _ | hh
    · simp only [callLoop, attemptCurrent, hllm]
      by_cases hbr : llms.length ≤ tried + 1
      · rw [if_pos hbr]; exact h
      · rw [if_neg hbr]
        have hne : llms.length ≠ 0 := by omega
        rw [switch_to_next_model_eq llms s hne]
        exact ih _ _ _ _ (Nat.mod_lt _ (Nat.pos_of_ne_zero hne))
    · rcases hres : rc hh with e | resp
      · simp only [callLoop, attemptCurrent, hllm, hres]
        by_cases hbr : llms.length ≤ tried + 1
        · rw [if_pos hbr]; exact h
        · rw [if_neg hbr]
          have hne : llms.length ≠ 0 := by omega
          rw [switch_to_next_model_eq llms s hne]
          exact ih _ _ _ _ (Nat.mod_lt _ (Nat.pos_of_ne_zero hne))
      · simp only [callLoop, attemptCurrent, hllm, hres]
        exact h

theorem call_cursor_lt {H : Type} [Inhabited H] (llms : List (ModelEntry H))
    (rc : H → Except String String) (s : ServiceState H)
    (modelName : Option String) (h : s.currentModelIndex < llms.length) :
    (call llms rc s modelName).finalState.currentModelIndex < llms.length := by
  cases modelName with
  | none => exact callLoop_cursor_lt llms rc llms.length s 0 none [] h
  | some name =>
    simp only [call]
    rcases hg : registryGet llms name with e | hh
    · exact h
    · simp only
      rcases hidx : indexOfName llms name with _ | i
      · simp only [hidx]
        exact callLoop_cursor_lt llms rc llms.length _ 0 none [] h
      · simp only [hidx]
        exact callLoop_cursor_lt llms rc llms.length _ 0 none []
          (indexOfName_lt llms name i hidx)

theorem initService_cursor_lt {H : Type} [Inhabited H]
    (llms : List (ModelEntry H)) (d : String) (s0 : ServiceState H)
    (h : initService llms d = some s0) :
    s0.currentModelIndex < llms.length := by
  unfold initService at h
  rcases hidx : indexOfName llms d with _ | i
  · rw [hidx] at h
    cases llms with
    | nil => simp at h
    | cons e rest =>
      simp only [Option.some.injEq] at h
      rw [← h]
      simp
  · rw [hidx] at h
    simp only [Option.some.injEq] at h
    rw [← h]
    exact indexOfName_lt llms d i hidx

theorem stepOp_cursor_lt {H : Type} [Inhabited H] (llms : List (ModelEntry H))
    (s : ServiceState H) (op : ServiceOp H)
    (h : s.currentModelIndex < llms.length) :
    (stepOp llms s op).currentModelIndex < llms.length := by
  cases op with
  | callOp rc name => exact call_cursor_lt llms rc s name h
  | rotateOp =>
    unfold stepOp
    have hne : llms.length ≠ 0 := by omega
    rw [switch_to_next_model_eq llms s hne]
    exact Nat.mod_lt _ (Nat.pos_of_ne_zero hne)
  | initOp d =>
    simp only [stepOp]
    rcases hi : initService llms d with _ | s2
    · simp only [hi]; exact h
    · simp only [hi]; exact initService_cursor_lt llms d s2 hi

/-- C7: starting from a successfully initialized service, after any sequence
of operations (calls with or without an explicit registered model name,
cursor rotations, re-initializations) the cursor is in `[0, N)`. -/
theorem service_cursor_always_in_range {H : Type} [Inhabited H]
    (llms : List (ModelEntry H)) (defaultModel : String) (s0 : ServiceState H)
    (hinit : initService llms defaultModel = some s0) (ops : List (ServiceOp H)) :
    (ops.foldl (stepOp llms) s0).currentModelIndex < llms.length := by
  have h0 := initService_cursor_lt llms defaultModel s0 hinit
  clear hinit
  induction ops generalizing s0 with
  | nil => exact h0
  | cons op rest ih => exact ih _ (stepOp_cursor_lt llms s0 op h0)

/-- C7 witness: the invariant instantiated on the two-entry registry with a
rotation, a failing call and another rotation. -/
theorem service_cursor_always_in_range_witness :
    initService demoReg "alpha" = some ⟨some 0, 0⟩
    ∧ (([ServiceOp.rotateOp,
         ServiceOp.callOp (fun _ => Except.error "x") none,
         ServiceOp.rotateOp].foldl (stepOp demoReg)
          (⟨some 0, 0⟩ : ServiceState Nat)).currentModelIndex < demoReg.length) :=
  ⟨by decide,
   service_cursor_always_in_range demoReg "alpha" ⟨some 0, 0⟩ (by decide)
     [ServiceOp.rotateOp, ServiceOp.callOp (fun _ => Except.error "x") none,
      ServiceOp.rotateOp]⟩

theorem incrementEvent_not_terminal (i : CopilotIncrement) :
    (incrementEvent i).isTerminal = false := by
  rcases i with ⟨k, co, md⟩
  cases k <;> rfl

theorem event_generator_eq (chunks : List String) (pterm : Option String) :
    event_generator (chunks, pterm)
      = chunks.map (fun c => (⟨c, false⟩ : StreamResponse))
          ++ [match pterm with
              | none => (⟨"", true⟩ : StreamResponse)
              | some e => (⟨e, true⟩ : StreamResponse)] := by
  induction chunks with
  | nil => cases pterm <;> simp [event_generator]
  | cons c rest ih => simp [event_generator, ih]

theorem copilot_event_generator_eq (sid : String)
    (incs : List CopilotIncrement) (cterm : Option String) :
    copilot_event_generator sid (incs, cterm)
      = incs.map incrementEvent
          ++ [match cterm with
              | none => copilotFinalEvent sid
              | some e => copilotErrorEvent sid e] := by
  induction incs with
  | nil => cases cterm <;> simp [copilot_event_generator]
  | cons i rest ih => simp [copilot_event_generator, ih]

/-- C8: both streaming generators re-emit one event per feed increment, in
arrival order, then exactly one terminal event — the completion marker
on normal termination, or the error event carrying the failure message
when the feed raises after a prefix — and nothing at all after it
(the terminal event is the single `done`/terminal-typed element, in last
position). -/
theorem streaming_single_terminal (chunks : List String) (pterm : Option String)
    (incs : List CopilotIncrement) (cterm : Option String) (sid : String) :
    event_generator (chunks, pterm)
      = chunks.map (fun c => (⟨c, false⟩ : StreamResponse))
          ++ [match pterm with
              | none => (⟨"", true⟩ : StreamResponse)
              | some e => (⟨e, true⟩ : StreamResponse)]
    ∧ ((event_generator (chunks, pterm)).filter (fun r => r.done)).length = 1
    ∧ copilot_event_generator sid (incs, cterm)
      = incs.map incrementEvent
          ++ [match cterm with
              | none => copilotFinalEvent sid
              | some e => copilotErrorEvent sid e]
    ∧ ((copilot_event_generator sid (incs, cterm)).filter
          (fun ev => ev.isTerminal)).length = 1 := by
  refine ⟨event_generator_eq chunks pterm, ?_, copilot_event_generator_eq sid incs cterm, ?_⟩
  · rw [event_generator_eq chunks pterm]
    rw [List.filter_append]
    have hmap : (chunks.map (fun c => (⟨c, false⟩ : StreamResponse))).filter
        (fun r => r.done) = [] := by
      induction chunks with
      | nil => rfl
      | cons c rest ih => simpa [List.filter] using ih
    rw [hmap]
    cases pterm <;> simp [List.filter]
  · rw [copilot_event_generator_eq sid incs cterm]
    rw [List.filter_append]
    have hmap : (incs.map incrementEvent).filter (fun ev => ev.isTerminal) = [] := by
      induction incs with
      | nil => rfl
      | cons i rest ih =>
        simpa [List.filter, incrementEvent_not_terminal i] using ih
    rw [hmap]
    cases cterm <;> simp [List.filter, copilotFinalEvent, copilotErrorEvent, CopilotEvent.isTerminal]

theorem dropLit_eq_some {pat l r : List Char} :
    dropLit pat l = some r ↔ l = pat ++ r := by
  induction pat generalizing l with
  | nil => simp [dropLit, eq_comm]
  | cons p ps ih =>
    cases l with
    | nil => simp [dropLit]
    | cons c cs =>
      by_cases hc : c = p
      · subst hc
        simp [dropLit, ih]
      · simp [dropLit, hc]

theorem hasSub_iff {pat l : List Char} :
    hasSub pat l = true ↔ ∃ p t, l = p ++ (pat ++ t) := by
  induction l with
  | nil =>
    simp only [hasSub]
    constructor
    · intro h
      obtain ⟨r, hr⟩ := Option.isSome_iff_exists.mp h
      have := dropLit_eq_some.mp hr
      exact ⟨[], r, by simpa using this⟩
    · rintro ⟨p, t, hpt⟩
      have hp : p = [] ∧ pat = [] ∧ t = [] := by
        constructor
        · cases p with
          | nil => rfl
          | cons a b => simp at hpt
        · cases p <;> cases pat <;> simp_all
      obtain ⟨hp1, hp2, hp3⟩ := hp
      subst hp2
      simp [dropLit]
  | cons c rest ih =>
    simp only [hasSub, Bool.or_eq_true, ih]
    constructor
    · rintro (h | ⟨p, t, h⟩)
      · obtain ⟨r, hr⟩ := Option.isSome_iff_exists.mp h
        exact ⟨[], r, by simpa using dropLit_eq_some.mp hr⟩
      · exact ⟨c :: p, t, by simp [h]⟩
    · rintro ⟨p, t, h⟩
      cases p with
      | nil =>
        left
        rw [dropLit_eq_some.mpr (by simpa using h)]
        rfl
      | cons p0 ps =>
        right
        simp only [List.cons_append, List.cons.injEq] at h
        exact ⟨ps, t, h.2⟩

theorem scanGt_iff {pat l : List Char} :
    scanGt pat l = true ↔ ∃ a b, l = a ++ ('>' :: b) ∧ hasSub pat b = true := by
  induction l with
  | nil =>
    simp only [scanGt]
    constructor
    · intro h; exact absurd h (by simp)
    · rintro ⟨a, b, h, _⟩
      cases a <;> simp at h
  | cons c rest ih =>
    simp only [scanGt, Bool.or_eq_true, Bool.and_eq_true, decide_eq_true_eq, ih]
    constructor
    · rintro (⟨hgt, hsub⟩ | ⟨a, b, h, hsub⟩)
      · exact ⟨[], rest, by simp [hgt], hsub⟩
      · exact ⟨c :: a, b, by simp [h], hsub⟩
    · rintro ⟨a, b, h, hsub⟩
      cases a with
      | nil =>
        left
        simp only [List.nil_append, List.cons.injEq] at h
        exact ⟨h.1, h.2 ▸ hsub⟩
      | cons a0 as =>
        right
        simp only [List.cons_append, List.cons.injEq] at h
        exact ⟨as, b, h.2, hsub⟩

theorem scanOpenTag_iff {l : List Char} :
    scanOpenTag l = true
      ↔ ∃ p a, l = p ++ (openChars ++ a) ∧ scanGt closeChars a = true := by
  induction l with
  | nil =>
    simp only [scanOpenTag]
    constructor
    · intro h; exact absurd h (by simp)
    · rintro ⟨p, a, h, _⟩
      have := congrArg List.length h
      simp [openChars] at this
      omega
  | cons c rest ih =>
    simp only [scanOpenTag, Bool.or_eq_true, ih]
    constructor
    · rintro (h | ⟨p, a, h, hgt⟩)
      · rcases hd : dropLit openChars (c :: rest) with _ | after
        · rw [hd] at h; exact absurd h (by simp)
        · rw [hd] at h
          simp only [Option.elim] at h
          exact ⟨[], after, by simpa using dropLit_eq_some.mp hd, h⟩
      · exact ⟨c :: p, a, by simp [h], hgt⟩
    · rintro ⟨p, a, h, hgt⟩
      cases p with
      | nil =>
        left
        rw [dropLit_eq_some.mpr (by simpa using h)]
        simpa using hgt
      | cons p0 ps =>
        right
        simp only [List.cons_append, List.cons.injEq] at h
        exact ⟨ps, a, h.2, hgt⟩

theorem scriptMatch_iff (v : String) : scriptMatch v = true ↔ scriptTagProp v := by
  unfold scriptMatch scriptTagProp
  rw [scanOpenTag_iff]
  constructor
  · rintro ⟨p, a, hl, hgt⟩
    rw [scanGt_iff] at hgt
    obtain ⟨a1, b, ha, hsub⟩ := hgt
    rw [hasSub_iff] at hsub
    obtain ⟨b1, t, hb⟩ := hsub
    refine ⟨p, a1, b1, t, ?_⟩
    rw [hl, ha, hb]
  · rintro ⟨p, a, b, t, h⟩
    refine ⟨p, a ++ ('>' :: (b ++ (closeChars ++ t))), by simpa using h, ?_⟩
    rw [scanGt_iff]
    exact ⟨a, b ++ (closeChars ++ t), rfl, hasSub_iff.mpr ⟨b, t, rfl⟩⟩

/-- C9: constructing a `Message` rejects the content exactly when it is
empty, longer than 3000 characters, matches the (case-insensitive,
newline-crossing) script-tag pattern, or contains a null byte; any other
content is accepted unchanged. -/
theorem message_content_validation (v : String) :
    (validate_content v = Except.ok v
      ↔ ¬(v.length = 0 ∨ 3000 < v.length ∨ scriptTagProp v
            ∨ Char.ofNat 0 ∈ v.toList))
    ∧ ((v.length = 0 ∨ 3000 < v.length ∨ scriptTagProp v
          ∨ Char.ofNat 0 ∈ v.toList) →
        ∃ msg, validate_content v = Except.error msg)
    ∧ (∀ w, validate_content v = Except.ok w → w = v) := by
  have hscript := scriptMatch_iff v
  unfold validate_content
  split_ifs with h1 h2 h3 h4
  · have hD : v.length = 0 ∨ 3000 < v.length ∨ scriptTagProp v
        ∨ Char.ofNat 0 ∈ v.toList := Or.inl (by omega)
    exact ⟨iff_of_false (by simp) (not_not_intro hD), fun _ => ⟨_, rfl⟩,
      fun w hw => by simp at hw⟩
  · have hD : v.length = 0 ∨ 3000 < v.length ∨ scriptTagProp v
        ∨ Char.ofNat 0 ∈ v.toList := Or.inr (Or.inl h2)
    exact ⟨iff_of_false (by simp) (not_not_intro hD), fun _ => ⟨_, rfl⟩,
      fun w hw => by simp at hw⟩
  · have hD : v.length = 0 ∨ 3000 < v.length ∨ scriptTagProp v
        ∨ Char.ofNat 0 ∈ v.toList := Or.inr (Or.inr (Or.inl (hscript.mp h3)))
    exact ⟨iff_of_false (by simp) (not_not_intro hD), fun _ => ⟨_, rfl⟩,
      fun w hw => by simp at hw⟩
  · have hD : v.length = 0 ∨ 3000 < v.length ∨ scriptTagProp v
        ∨ Char.ofNat 0 ∈ v.toList := Or.inr (Or.inr (Or.inr h4))
    exact ⟨iff_of_false (by simp) (not_not_intro hD), fun _ => ⟨_, rfl⟩,
      fun w hw => by simp at hw⟩
  · have hnd : ¬(v.length = 0 ∨ 3000 < v.length ∨ scriptTagProp v
        ∨ Char.ofNat 0 ∈ v.toList) := by
      rintro (h | h | h | h)
      · omega
      · exact h2 h
      · rw [← hscript] at h
        simp [h] at h3
      · exact h4 h
    exact ⟨iff_of_true rfl hnd, fun hd => absurd hd hnd,
      fun w hw => (Except.ok.inj hw).symm⟩
